import Mathlib

/-!
Verification of the payment-intermediation gateway (cgb-go-v2).

The development shallowly embeds the core dispatch pipeline of the Go
sources: the Processor Client (`forwardToProcessor`, src/main.go
196-222), the dispatch worker loop (`processPayments`, src/main.go
172-194 with the bounded-retry policy, and the earlier non-retry
variant at src/unnamed/part_001 164-182), the admission endpoint
(`receivePayment`, src/main.go 124-140), the write path to the summary
store (`saveSummaryAsync` src/main.go 228-239, `processSummaryBatch`
and `processSummaryDirect` src/unnamed/part_001 261-290), and the read
path (`getSummaryData`, src/main.go 243-271).

Modelling conventions, stated once:
- the outcome of one downstream HTTP exchange is an `HttpResult`
  (a status, a transport error, or a timeout); a worker's interaction
  with the network for one dequeued payment is a function from attempt
  number to `HttpResult` for the default processor plus one
  `HttpResult` for the fallback;
- `float64` amounts are modelled as exact rationals; floating-point
  rounding of sums is not modelled;
- the Redis hash `summary:<tag>:data` with field `correlationId`
  and the sorted set `summary:<tag>:history` with member
  `correlationId` are modelled as association lists keyed by the pair
  `(tag, correlationId)`; `HSET` and `ZADD` both overwrite the value
  (respectively score) of an existing field (member), which is the
  `hset` operation below;
- wall-clock time and goroutine interleaving are outside the
  embedding; a worker iteration is modelled as the ordered list of
  `WorkerAction`s it performs for one dequeued payment.
-/

open List

namespace Gateway

/-- Outcome of one HTTP POST to a processor, as seen by
`forwardToProcessor` in src/main.go 215-221: either a response with a
status code, or an error from `httpClient.Do` (transport failure or
the 5s client timeout). -/
inductive HttpResult where
  | ok (status : Nat)
  | transportError
  | timeout
deriving DecidableEq, Repr

/-- `forwardToProcessor` (src/main.go 196-222, identical in
src/unnamed/part_001 184-210): `resp, err := httpClient.Do(req); if
err != nil { return false }; return resp.StatusCode == 200`.  Timeouts
and transport errors surface as `err != nil`. -/
def forwardToProcessor (r : HttpResult) : Bool :=
  match r with
  | HttpResult.ok status => status == 200
  | HttpResult.transportError => false
  | HttpResult.timeout => false

/-- One observable action of a dispatch worker while handling a single
dequeued payment: an attempt on the default processor (with its
attempt index and HTTP outcome), a sleep of the given number of
milliseconds, an attempt on the fallback processor, or the emission of
an accounting event tagged with a processor name (a call to
`saveSummaryAsync`). -/
inductive WorkerAction where
  | callDefault (attempt : Nat) (r : HttpResult)
  | sleepMs (ms : Nat)
  | callFallback (r : HttpResult)
  | emit (processor : String)
deriving DecidableEq, Repr

/-- The retry loop of `processPayments` in src/main.go 177-184:
`for i := 0; i < 5; i++ { if forwardToProcessor(payment, DEFAULT) {
processed = true; break }; time.Sleep(100ms) }`.  `d` gives the HTTP
outcome of each attempt, `i` is the current attempt index, `fuel` the
remaining iterations.  Returns the actions performed and the final
value of `processed`. -/
def defaultRetryLoop (d : Nat → HttpResult) : Nat → Nat → List WorkerAction × Bool
  | _, 0 => ([], false)
  | i, fuel + 1 =>
    if forwardToProcessor (d i) then
      ([WorkerAction.callDefault i (d i)], true)
    else
      let rest := defaultRetryLoop d (i + 1) fuel
      (WorkerAction.callDefault i (d i) :: WorkerAction.sleepMs 100 :: rest.1, rest.2)

/-- One iteration of `processPayments` (src/main.go 172-194) for a
single dequeued payment: the 5-attempt retry loop on the default
processor, then `if processed { saveSummaryAsync("default", p) } else
if forwardToProcessor(p, FALLBACK) { saveSummaryAsync("fallback", p) }`
and nothing when both fail. -/
def processPayments (d : Nat → HttpResult) (f : HttpResult) : List WorkerAction :=
  let res := defaultRetryLoop d 0 5
  if res.2 then
    res.1 ++ [WorkerAction.emit "default"]
  else if forwardToProcessor f then
    res.1 ++ [WorkerAction.callFallback f, WorkerAction.emit "fallback"]
  else
    res.1 ++ [WorkerAction.callFallback f]

/-- One iteration of the earlier worker variant `processPayments`
(src/unnamed/part_001 164-182): a single attempt on the default
processor, on failure a single attempt on the fallback, then
`saveSummaryAsync(processorUsed, p)` when `processorUsed != "none"`. -/
def processPaymentsV1 (d f : HttpResult) : List WorkerAction :=
  if forwardToProcessor d then
    [WorkerAction.callDefault 0 d, WorkerAction.emit "default"]
  else if forwardToProcessor f then
    [WorkerAction.callDefault 0 d, WorkerAction.callFallback f,
      WorkerAction.emit "fallback"]
  else
    [WorkerAction.callDefault 0 d, WorkerAction.callFallback f]

/-- Accounting events emitted during a worker iteration, in order: the
processor tags passed to `saveSummaryAsync`. -/
def emittedEvents (tr : List WorkerAction) : List String :=
  tr.filterMap (fun a =>
    match a with
    | WorkerAction.emit p => some p
    | _ => none)

/-- Recognizes a default-processor attempt. -/
def isCallDefault (a : WorkerAction) : Bool :=
  match a with
  | WorkerAction.callDefault _ _ => true
  | _ => false

/-- Recognizes a fallback-processor attempt. -/
def isCallFallback (a : WorkerAction) : Bool :=
  match a with
  | WorkerAction.callFallback _ => true
  | _ => false

/-- Recognizes a sleep. -/
def isSleep (a : WorkerAction) : Bool :=
  match a with
  | WorkerAction.sleepMs _ => true
  | _ => false

/-- Number of default-processor attempts in a worker trace. -/
def countDefaultCalls (tr : List WorkerAction) : Nat := tr.countP isCallDefault

/-- Number of fallback-processor attempts in a worker trace. -/
def countFallbackCalls (tr : List WorkerAction) : Nat := tr.countP isCallFallback

/-- Number of sleeps in a worker trace. -/
def countSleeps (tr : List WorkerAction) : Nat := tr.countP isSleep

lemma defaultRetryLoop_flag (d : Nat → HttpResult) :
    ∀ fuel i, (defaultRetryLoop d i fuel).2 = true ↔
      ∃ j, j < fuel ∧ forwardToProcessor (d (i + j)) = true := by
  intro fuel
  induction fuel with
  | zero => intro i; simp [defaultRetryLoop]
  | succ n ih =>
    intro i
    by_cases h : forwardToProcessor (d i) = true
    · constructor
      · intro _
        exact ⟨0, Nat.succ_pos n, by simpa using h⟩
      · intro _
        simp [defaultRetryLoop, h]
    · simp only [defaultRetryLoop, h, if_neg, Bool.not_eq_true]
      rw [ih (i + 1)]
      constructor
      · rintro ⟨j, hj, hs⟩
        exact ⟨j + 1, by omega, by
          have : i + 1 + j = i + (j + 1) := by omega
          rwa [this] at hs⟩
      · rintro ⟨j, hj, hs⟩
        cases j with
        | zero => exact absurd (by simpa using hs) (by simp [h])
        | succ j' =>
          exact ⟨j', by omega, by
            have : i + 1 + j' = i + (j' + 1) := by omega
            rwa [this]⟩

lemma defaultRetryLoop_mem (d : Nat → HttpResult) :
    ∀ fuel i a, a ∈ (defaultRetryLoop d i fuel).1 →
      isCallDefault a = true ∨ a = WorkerAction.sleepMs 100 := by
  intro fuel
  induction fuel with
  | zero => intro i a h; simp [defaultRetryLoop] at h
  | succ n ih =>
    intro i a h
    by_cases hf : forwardToProcessor (d i) = true
    · simp only [defaultRetryLoop, hf, if_pos, mem_singleton] at h
      left; simp [h, isCallDefault]
    · simp only [defaultRetryLoop, hf, if_neg, Bool.not_eq_true, mem_cons] at h
      rcases h with h | h | h
      · left; simp [h, isCallDefault]
      · right; exact h
      · exact ih (i + 1) a h

lemma defaultRetryLoop_count_le (d : Nat → HttpResult) :
    ∀ fuel i, countDefaultCalls (defaultRetryLoop d i fuel).1 ≤ fuel := by
  intro fuel
  induction fuel with
  | zero => intro i; simp [defaultRetryLoop, countDefaultCalls]
  | succ n ih =>
    intro i
    by_cases hf : forwardToProcessor (d i) = true
    · simp [defaultRetryLoop, hf, countDefaultCalls, countP_cons, isCallDefault]
    · simp only [defaultRetryLoop, hf, if_neg, Bool.not_eq_true]
      have := ih (i + 1)
      simp only [countDefaultCalls, countP_cons] at this ⊢
      simp [isCallDefault, isSleep, this]

lemma defaultRetryLoop_all_fail (d : Nat → HttpResult) :
    ∀ fuel i, (∀ j, j < fuel → forwardToProcessor (d (i + j)) = false) →
      countDefaultCalls (defaultRetryLoop d i fuel).1 = fuel ∧
      countSleeps (defaultRetryLoop d i fuel).1 = fuel := by
  intro fuel
  induction fuel with
  | zero => intro i _; simp [defaultRetryLoop, countDefaultCalls, countSleeps]
  | succ n ih =>
    intro i h
    have h0 : forwardToProcessor (d i) = false := by simpa using h 0 (Nat.succ_pos n)
    have hrest := ih (i + 1) (fun j hj => by
      have : i + 1 + j = i + (j + 1) := by omega
      rw [this]; exact h (j + 1) (by omega))
    simp only [defaultRetryLoop, h0, Bool.false_eq_true, if_neg, not_false_iff]
    simp only [countDefaultCalls, countSleeps, countP_cons] at hrest ⊢
    simp [isCallDefault, isSleep, hrest.1, hrest.2]

lemma defaultRetryLoop_first_success (d : Nat → HttpResult) :
    ∀ fuel i k, k < fuel → forwardToProcessor (d (i + k)) = true →
      (∀ j, j < k → forwardToProcessor (d (i + j)) = false) →
      countDefaultCalls (defaultRetryLoop d i fuel).1 = k + 1 ∧
      countSleeps (defaultRetryLoop d i fuel).1 = k := by
  intro fuel
  induction fuel with
  | zero => intro i k hk; omega
  | succ n ih =>
    intro i k hk hs hfail
    cases k with
    | zero =>
      have h0 : forwardToProcessor (d i) = true := by simpa using hs
      simp [defaultRetryLoop, h0, countDefaultCalls, countSleeps, countP_cons,
        isCallDefault, isSleep]
    | succ k' =>
      have h0 : forwardToProcessor (d i) = false := by
        simpa using hfail 0 (Nat.succ_pos k')
      have hrest := ih (i + 1) k' (by omega)
        (by
          have : i + 1 + k' = i + (k' + 1) := by omega
          rwa [this])
        (fun j hj => by
          have : i + 1 + j = i + (j + 1) := by omega
          rw [this]; exact hfail (j + 1) (by omega))
      simp only [defaultRetryLoop, h0, Bool.false_eq_true, if_neg, not_false_iff]
      simp only [countDefaultCalls, countSleeps, countP_cons] at hrest ⊢
      simp [isCallDefault, isSleep, hrest.1, hrest.2]

lemma emittedEvents_append (tr₁ tr₂ : List WorkerAction) :
    emittedEvents (tr₁ ++ tr₂) = emittedEvents tr₁ ++ emittedEvents tr₂ := by
  simp [emittedEvents]

lemma emittedEvents_retryLoop (d : Nat → HttpResult) (fuel i : Nat) :
    emittedEvents (defaultRetryLoop d i fuel).1 = [] := by
  rw [emittedEvents, filterMap_eq_nil_iff]
  intro a ha
  rcases defaultRetryLoop_mem d fuel i a ha with h | h
  · cases a <;> simp_all [isCallDefault]
  · simp [h]

lemma countFallback_retryLoop (d : Nat → HttpResult) (fuel i : Nat) :
    countFallbackCalls (defaultRetryLoop d i fuel).1 = 0 := by
  rw [countFallbackCalls, countP_eq_zero]
  intro a ha
  rcases defaultRetryLoop_mem d fuel i a ha with h | h
  · cases a <;> simp_all [isCallDefault, isCallFallback]
  · simp [h, isCallFallback]

lemma emittedEvents_processPayments (d : Nat → HttpResult) (f : HttpResult) :
    emittedEvents (processPayments d f) =
      if (defaultRetryLoop d 0 5).2 then ["default"]
      else if forwardToProcessor f then ["fallback"] else [] := by
  have hloop := emittedEvents_retryLoop d 5 0
  simp only [emittedEvents] at hloop
  unfold processPayments
  by_cases h : (defaultRetryLoop d 0 5).2 <;>
    by_cases hf : forwardToProcessor f = true <;>
      simp [h, hf, emittedEvents, hloop]

lemma counts_processPayments (d : Nat → HttpResult) (f : HttpResult) :
    countDefaultCalls (processPayments d f) =
        countDefaultCalls (defaultRetryLoop d 0 5).1 ∧
      countSleeps (processPayments d f) = countSleeps (defaultRetryLoop d 0 5).1 ∧
      countFallbackCalls (processPayments d f) =
        (if (defaultRetryLoop d 0 5).2 then 0 else 1) := by
  have hcf := countFallback_retryLoop d 5 0
  unfold processPayments
  by_cases h : (defaultRetryLoop d 0 5).2 <;>
    by_cases hf : forwardToProcessor f = true <;>
      simp_all [countDefaultCalls, countSleeps, countFallbackCalls, countP_append,
        countP_cons, isCallDefault, isSleep, isCallFallback]

lemma sleep_mem_processPayments (d : Nat → HttpResult) (f : HttpResult) (ms : Nat)
    (hms : WorkerAction.sleepMs ms ∈ processPayments d f) : ms = 100 := by
  have hloop : WorkerAction.sleepMs ms ∈ (defaultRetryLoop d 0 5).1 → ms = 100 := by
    intro h1
    rcases defaultRetryLoop_mem d 5 0 _ h1 with h2 | h2
    · simp [isCallDefault] at h2
    · simpa using h2
  unfold processPayments at hms
  by_cases h : (defaultRetryLoop d 0 5).2
  · rw [if_pos h] at hms
    rcases mem_append.1 hms with h1 | h1
    · exact hloop h1
    · simp at h1
  · by_cases hf : forwardToProcessor f = true
    · rw [if_neg h, if_pos hf] at hms
      rcases mem_append.1 hms with h1 | h1
      · exact hloop h1
      · simp at h1
    · rw [if_neg h, if_neg hf] at hms
      rcases mem_append.1 hms with h1 | h1
      · exact hloop h1
      · simp at h1

lemma all_fail_of_not_flag (d : Nat → HttpResult)
    (h : ¬(defaultRetryLoop d 0 5).2 = true) :
    ∀ i, i < 5 → forwardToProcessor (d i) = false := by
  intro i hi
  cases hf : forwardToProcessor (d i)
  · rfl
  · exact absurd ((defaultRetryLoop_flag d 5 0).2 ⟨i, hi, by simpa using hf⟩) h

/-- C4: the Processor Client returns Success exactly when the
downstream HTTP response status is exactly 200; any other status, a
transport error or a timeout yields Failure, and the Boolean result
admits no other outcome. -/
theorem C4_forward_success_iff_status_200 (r : HttpResult) :
    forwardToProcessor r = true ↔ r = HttpResult.ok 200 := by
  cases r <;> simp [forwardToProcessor]

/-- C1: for one payment pulled from the admission queue, the worker
iteration of src/main.go emits at most one accounting event; it emits
the event tagged with the default processor exactly when some of the
five default attempts returned HTTP 200, the event tagged with the
fallback processor exactly when all default attempts failed and the
fallback returned HTTP 200, and no event at all when every processor
call failed. -/
theorem C1_at_most_one_event (d : Nat → HttpResult) (f : HttpResult) :
    (emittedEvents (processPayments d f)).length ≤ 1 ∧
      ((∃ i, i < 5 ∧ forwardToProcessor (d i) = true) →
        emittedEvents (processPayments d f) = ["default"]) ∧
      ((∀ i, i < 5 → forwardToProcessor (d i) = false) →
        forwardToProcessor f = true →
        emittedEvents (processPayments d f) = ["fallback"]) ∧
      ((∀ i, i < 5 → forwardToProcessor (d i) = false) →
        forwardToProcessor f = false →
        emittedEvents (processPayments d f) = []) := by
  have he := emittedEvents_processPayments d f
  refine ⟨?_, ?_, ?_, ?_⟩
  · rw [he]
    by_cases h : (defaultRetryLoop d 0 5).2 <;>
      by_cases hf : forwardToProcessor f = true <;> simp [h, hf]
  · rintro ⟨i, hi, hs⟩
    have : (defaultRetryLoop d 0 5).2 = true :=
      (defaultRetryLoop_flag d 5 0).2 ⟨i, hi, by simpa using hs⟩
    rw [he, if_pos this]
  · intro hall hf
    have hflag : ¬(defaultRetryLoop d 0 5).2 = true := by
      intro hfl
      rcases (defaultRetryLoop_flag d 5 0).1 hfl with ⟨j, hj, hs⟩
      have := hall j hj
      simp at hs
      simp_all
    rw [he, if_neg hflag, if_pos hf]
  · intro hall hf
    have hflag : ¬(defaultRetryLoop d 0 5).2 = true := by
      intro hfl
      rcases (defaultRetryLoop_flag d 5 0).1 hfl with ⟨j, hj, hs⟩
      have := hall j hj
      simp at hs
      simp_all
    rw [he, if_neg hflag, if_neg (by simp [hf])]

/-- Witness for C1 at concrete processor behaviours: a healthy default
processor yields exactly the default-tagged event, a dead default with
healthy fallback yields exactly the fallback-tagged event, and two
dead processors yield no event. -/
theorem C1_at_most_one_event_witness :
    emittedEvents (processPayments (fun _ => HttpResult.ok 200) HttpResult.timeout) =
        ["default"] ∧
      emittedEvents (processPayments (fun _ => HttpResult.ok 500) (HttpResult.ok 200)) =
        ["fallback"] ∧
      emittedEvents
          (processPayments (fun _ => HttpResult.timeout) HttpResult.transportError) =
        [] :=
  ⟨(C1_at_most_one_event _ _).2.1 ⟨0, by omega, rfl⟩,
    (C1_at_most_one_event _ _).2.2.1 (fun _ _ => rfl) rfl,
    (C1_at_most_one_event _ _).2.2.2 (fun _ _ => rfl) rfl⟩

/-- C3: the selection policy of the worker iteration in
src/unnamed/part_001 (the variant without retry, matching the policy
steps of the spec literally): the default processor is attempted
first; on default success the worker emits the default-tagged event
and never contacts the fallback; only on default failure is the
fallback attempted, exactly once; on fallback success the
fallback-tagged event is emitted; when both fail no event is emitted. -/
theorem C3_selection_policy (d f : HttpResult) :
    (processPaymentsV1 d f).head? = some (WorkerAction.callDefault 0 d) ∧
      (forwardToProcessor d = true →
        processPaymentsV1 d f =
          [WorkerAction.callDefault 0 d, WorkerAction.emit "default"]) ∧
      (forwardToProcessor d = true → countFallbackCalls (processPaymentsV1 d f) = 0) ∧
      (forwardToProcessor d = false → countFallbackCalls (processPaymentsV1 d f) = 1) ∧
      (forwardToProcessor d = false → forwardToProcessor f = true →
        emittedEvents (processPaymentsV1 d f) = ["fallback"]) ∧
      (forwardToProcessor d = false → forwardToProcessor f = false →
        emittedEvents (processPaymentsV1 d f) = []) := by
  by_cases hd : forwardToProcessor d = true <;>
    by_cases hf : forwardToProcessor f = true <;>
      simp_all [processPaymentsV1, countFallbackCalls, countP_cons, isCallFallback,
        emittedEvents]

/-- Witness for C3 at concrete processor behaviours. -/
theorem C3_selection_policy_witness :
    processPaymentsV1 (HttpResult.ok 200) HttpResult.timeout =
        [WorkerAction.callDefault 0 (HttpResult.ok 200), WorkerAction.emit "default"] ∧
      emittedEvents (processPaymentsV1 (HttpResult.ok 503) (HttpResult.ok 200)) =
        ["fallback"] ∧
      emittedEvents (processPaymentsV1 HttpResult.timeout HttpResult.transportError) =
        [] :=
  ⟨(C3_selection_policy _ _).2.1 rfl,
    (C3_selection_policy _ _).2.2.2.2.1 rfl rfl,
    (C3_selection_policy _ _).2.2.2.2.2 rfl rfl⟩

/-- C9: under the bounded-retry variant (src/main.go), the worker
attempts the default processor at most 5 times, each failed attempt is
followed by a fixed 100ms delay and every delay in the iteration is
100ms; retrying stops at the first successful attempt (first success
at index k means exactly k+1 attempts and k inter-attempt delays, and
no fallback call); the fallback is attempted exactly once when all 5
attempts fail, and any fallback attempt implies all 5 default attempts
failed. -/
theorem C9_bounded_retry_policy (d : Nat → HttpResult) (f : HttpResult) :
    countDefaultCalls (processPayments d f) ≤ 5 ∧
      (∀ k, k < 5 → forwardToProcessor (d k) = true →
        (∀ j, j < k → forwardToProcessor (d j) = false) →
        countDefaultCalls (processPayments d f) = k + 1 ∧
          countSleeps (processPayments d f) = k ∧
          countFallbackCalls (processPayments d f) = 0) ∧
      ((∀ i, i < 5 → forwardToProcessor (d i) = false) →
        countDefaultCalls (processPayments d f) = 5 ∧
          countFallbackCalls (processPayments d f) = 1) ∧
      (0 < countFallbackCalls (processPayments d f) →
        ∀ i, i < 5 → forwardToProcessor (d i) = false) ∧
      (∀ ms, WorkerAction.sleepMs ms ∈ processPayments d f → ms = 100) := by
  have hc := counts_processPayments d f
  refine ⟨?_, ?_, ?_, ?_, ?_⟩
  · rw [hc.1]
    exact defaultRetryLoop_count_le d 5 0
  · intro k hk hs hfail
    have hfs := defaultRetryLoop_first_success d 5 0 k hk (by simpa using hs)
      (fun j hj => by simpa using hfail j hj)
    have hflag : (defaultRetryLoop d 0 5).2 = true :=
      (defaultRetryLoop_flag d 5 0).2 ⟨k, hk, by simpa using hs⟩
    exact ⟨by rw [hc.1, hfs.1], by rw [hc.2.1, hfs.2], by rw [hc.2.2, if_pos hflag]⟩
  · intro hall
    have haf := defaultRetryLoop_all_fail d 5 0 (fun j hj => by simpa using hall j hj)
    have hflag : ¬(defaultRetryLoop d 0 5).2 = true := by
      intro hfl
      rcases (defaultRetryLoop_flag d 5 0).1 hfl with ⟨j, hj, hs⟩
      have := hall j hj
      simp at hs
      simp_all
    exact ⟨by rw [hc.1, haf.1], by rw [hc.2.2, if_neg hflag]⟩
  · intro hpos
    rw [hc.2.2] at hpos
    by_cases hflag : (defaultRetryLoop d 0 5).2 = true
    · rw [if_pos hflag] at hpos
      omega
    · exact all_fail_of_not_flag d hflag
  · intro ms hms
    exact sleep_mem_processPayments d f ms hms

/-- Witness for C9: a default processor that succeeds on the second
attempt gives 2 attempts, one 100ms delay and no fallback call; a dead
default processor gives 5 attempts and one fallback call. -/
theorem C9_bounded_retry_policy_witness :
    countDefaultCalls
        (processPayments (fun i => if i = 1 then HttpResult.ok 200 else HttpResult.timeout)
          HttpResult.timeout) = 2 ∧
      countFallbackCalls (processPayments (fun _ => HttpResult.timeout) (HttpResult.ok 200)) =
        1 :=
  ⟨((C9_bounded_retry_policy
        (fun i => if i = 1 then HttpResult.ok 200 else HttpResult.timeout)
        HttpResult.timeout).2.1 1 (by omega) (by decide)
      (fun j hj => by
        have hj0 : j = 0 := by omega
        subst hj0
        decide)).1,
    ((C9_bounded_retry_policy (fun _ => HttpResult.timeout)
        (HttpResult.ok 200)).2.2.1 (fun _ _ => rfl)).2⟩

/-- `PostPayments` (src/main.go 52-56); the `float64` amount is an
exact rational. -/
structure PostPayments where
  CorrelationId : String
  Amount : ℚ
  RequestedAt : String
deriving DecidableEq, Repr

/-- Capacity of `paymentQueue` (src/main.go 35): `make(chan
PostPayments, 100_000)`. -/
def queueCapacity : Nat := 100000

/-- `receivePayment` (src/main.go 124-140): non-POST requests get 405,
an undecodable body gets 400; otherwise `select { case paymentQueue <-
p: 201; default: 429 }` — the send succeeds exactly when the bounded
channel has free capacity.  Returns the HTTP status and the queue
contents afterwards. -/
def receivePayment (method : String) (body : Option PostPayments)
    (queue : List PostPayments) : Nat × List PostPayments :=
  if method ≠ "POST" then (405, queue)
  else
    match body with
    | none => (400, queue)
    | some p =>
      if queue.length < queueCapacity then (201, queue ++ [p]) else (429, queue)

/-- A sequence of well-formed POST submissions handled one after the
other, collecting the returned statuses. -/
def submitAll (ps : List PostPayments) (queue : List PostPayments) :
    List Nat × List PostPayments :=
  match ps with
  | [] => ([], queue)
  | p :: rest =>
    let r := receivePayment "POST" (some p) queue
    let rr := submitAll rest r.2
    (r.1 :: rr.1, rr.2)

/-- C2: admission is non-blocking load shedding: a well-formed
submission is enqueued and answered 201 whenever the queue is below
its 100000 capacity, is answered 429 with the queue unchanged when the
queue is full, and a sequence of submissions that fits within the free
capacity is never rejected. -/
theorem C2_admission_nonblocking (p : PostPayments) (queue : List PostPayments) :
    (queue.length < queueCapacity →
      receivePayment "POST" (some p) queue = (201, queue ++ [p])) ∧
      (queueCapacity ≤ queue.length →
        receivePayment "POST" (some p) queue = (429, queue)) ∧
      (∀ ps : List PostPayments, ps.length + queue.length ≤ queueCapacity →
        ∀ s ∈ (submitAll ps queue).1, s = 201) := by
  refine ⟨?_, ?_, ?_⟩
  · intro h
    simp [receivePayment, h]
  · intro h
    simp [receivePayment, Nat.not_lt.2 h]
  · intro ps
    induction ps generalizing queue with
    | nil =>
      intro _ s hs
      simp [submitAll] at hs
    | cons q rest ih =>
      intro h s hs
      have hlt : queue.length < queueCapacity := by
        simp only [length_cons] at h
        omega
      have hr : receivePayment "POST" (some q) queue = (201, queue ++ [q]) := by
        simp [receivePayment, hlt]
      simp only [submitAll, hr] at hs
      rcases mem_cons.1 hs with h1 | h1
      · exact h1
      · refine ih (queue ++ [q]) ?_ s h1
        simp only [length_append, length_cons, length_nil] at h ⊢
        omega

/-- Witness for C2: an empty queue accepts with 201 and a full queue
sheds with 429. -/
theorem C2_admission_nonblocking_witness :
    receivePayment "POST" (some ⟨"c1", 10, "t"⟩) ([] : List PostPayments) =
        (201, [⟨"c1", 10, "t"⟩]) ∧
      receivePayment "POST" (some ⟨"c1", 10, "t"⟩)
          (List.replicate 100000 (⟨"c1", 10, "t"⟩ : PostPayments)) =
        (429, List.replicate 100000 (⟨"c1", 10, "t"⟩ : PostPayments)) :=
  ⟨(C2_admission_nonblocking ⟨"c1", 10, "t"⟩ []).1
      (by rw [List.length_nil]; exact Nat.pos_of_ne_zero (by decide)),
    (C2_admission_nonblocking ⟨"c1", 10, "t"⟩ _).2.1
      (by rw [List.length_replicate]; exact Nat.le_refl _)⟩

/-- Overwrite-by-key write into an association-list hash: the
behaviour of both Redis `HSET` (hash field update) and `ZADD` (sorted
set member score update) for a single key. -/
def hset {κ α : Type} [DecidableEq κ] : List (κ × α) → κ → α → List (κ × α)
  | [], k, v => [(k, v)]
  | e :: rest, k, v => if e.1 = k then (k, v) :: rest else e :: hset rest k v

/-- Lookup in an association-list hash (first matching key). -/
def hget {κ α : Type} [DecidableEq κ] : List (κ × α) → κ → Option α
  | [], _ => none
  | e :: rest, k => if e.1 = k then some e.2 else hget rest k

/-- `SummaryItem` (src/unnamed/part_001 71-76). -/
structure SummaryItem where
  Prefix : String
  CorrelationId : String
  Amount : ℚ
  Timestamp : ℤ
deriving DecidableEq, Repr

/-- The key under which one accounting event is stored: the Redis hash
`summary:<tag>:data` field `correlationId` and sorted-set
`summary:<tag>:history` member `correlationId` are modelled as the
pair key `(tag, correlationId)` (the tag-to-Redis-key mapping is
injective). -/
def itemKey (it : SummaryItem) : String × String := (it.Prefix, it.CorrelationId)

/-- The summary store: amounts hash and time index. -/
structure Store where
  data : List ((String × String) × ℚ)
  hist : List ((String × String) × ℤ)
deriving DecidableEq, Repr

/-- One accounting event's pair of writes, `HSET` of the amount plus
`ZADD` of the timestamp score, as pipelined in src/unnamed/part_001
271-275 (batch), 284-288 (direct) and src/main.go 233-237. -/
def writeSummaryItem (s : Store) (it : SummaryItem) : Store :=
  ⟨hset s.data (itemKey it) it.Amount, hset s.hist (itemKey it) it.Timestamp⟩

/-- `processSummaryBatch` (src/unnamed/part_001 261-279): every item
of the batch is written through one pipeline. -/
def processSummaryBatch (s : Store) (batch : List SummaryItem) : Store :=
  batch.foldl writeSummaryItem s

/-- `processSummaryDirect` (src/unnamed/part_001 281-290): the
unbatched single-event flush. -/
def processSummaryDirect (s : Store) (it : SummaryItem) : Store :=
  writeSummaryItem s it

/-- `saveSummaryAsync` (src/main.go 228-239): the direct pipelined
write of one event; `tsMillis` is the parsed `requestedAt` in
milliseconds. -/
def saveSummaryAsync (s : Store) (processor : String) (p : PostPayments)
    (tsMillis : ℤ) : Store :=
  writeSummaryItem s ⟨processor, p.CorrelationId, p.Amount, tsMillis⟩

lemma hget_hset {κ α : Type} [DecidableEq κ] (l : List (κ × α)) (k k' : κ) (v : α) :
    hget (hset l k v) k' = if k' = k then some v else hget l k' := by
  induction l with
  | nil =>
    simp only [hset, hget]
    by_cases h : k' = k
    · rw [if_pos h.symm, if_pos h]
    · rw [if_neg (fun hc => h hc.symm), if_neg h]
  | cons e rest ih =>
    simp only [hset]
    by_cases h1 : e.1 = k
    · rw [if_pos h1]
      simp only [hget]
      by_cases h2 : k' = k
      · rw [if_pos h2.symm, if_pos h2]
      · rw [if_neg (fun hc => h2 hc.symm), if_neg h2,
          if_neg (fun hc : e.1 = k' => h2 (hc.symm.trans h1))]
    · rw [if_neg h1]
      simp only [hget]
      by_cases h3 : e.1 = k'
      · have hk : ¬k' = k := fun hc => h1 (h3.trans hc)
        rw [if_pos h3, if_neg hk, if_pos h3]
      · rw [if_neg h3, ih, if_neg h3]


/-- The value the fold of overwrites leaves under one key: the last
write to that key in the batch, or the initial value. -/
def lastKeyWrite {α : Type} (proj : SummaryItem → α) (b : List SummaryItem)
    (k : String × String) (init : Option α) : Option α :=
  b.foldl (fun acc it => if k = itemKey it then some (proj it) else acc) init

lemma lastKeyWrite_cons {α : Type} (proj : SummaryItem → α) (it : SummaryItem)
    (rest : List SummaryItem) (k : String × String) (x : Option α) :
    lastKeyWrite proj (it :: rest) k x =
      lastKeyWrite proj rest k (if k = itemKey it then some (proj it) else x) := rfl

lemma lastKeyWrite_idem {α : Type} (proj : SummaryItem → α) :
    ∀ (b : List SummaryItem) (k : String × String) (x : Option α),
      lastKeyWrite proj b k (lastKeyWrite proj b k x) = lastKeyWrite proj b k x := by
  intro b
  induction b with
  | nil => intro k x; rfl
  | cons it rest ih =>
    intro k x
    by_cases h : k = itemKey it
    · have hcons : ∀ y : Option α,
          lastKeyWrite proj (it :: rest) k y =
            lastKeyWrite proj rest k (some (proj it)) := by
        intro y
        rw [lastKeyWrite_cons, if_pos h]
      rw [hcons, hcons]
    · have hcons : ∀ y : Option α,
          lastKeyWrite proj (it :: rest) k y = lastKeyWrite proj rest k y := by
        intro y
        rw [lastKeyWrite_cons, if_neg h]
      rw [hcons, hcons]
      exact ih k x

lemma processBatch_data_hget (b : List SummaryItem) :
    ∀ (s : Store) (k : String × String),
      hget (processSummaryBatch s b).data k =
        lastKeyWrite (fun it => it.Amount) b k (hget s.data k) := by
  induction b with
  | nil => intro s k; rfl
  | cons it rest ih =>
    intro s k
    show hget (processSummaryBatch (writeSummaryItem s it) rest).data k = _
    rw [ih]
    show _ = lastKeyWrite (fun x => x.Amount) rest k
      (if k = itemKey it then some it.Amount else hget s.data k)
    have : hget (writeSummaryItem s it).data k =
        if k = itemKey it then some it.Amount else hget s.data k := by
      show hget (hset s.data (itemKey it) it.Amount) k = _
      rw [hget_hset]
    rw [this]

lemma processBatch_hist_hget (b : List SummaryItem) :
    ∀ (s : Store) (k : String × String),
      hget (processSummaryBatch s b).hist k =
        lastKeyWrite (fun it => it.Timestamp) b k (hget s.hist k) := by
  induction b with
  | nil => intro s k; rfl
  | cons it rest ih =>
    intro s k
    show hget (processSummaryBatch (writeSummaryItem s it) rest).hist k = _
    rw [ih]
    show _ = lastKeyWrite (fun x => x.Timestamp) rest k
      (if k = itemKey it then some it.Timestamp else hget s.hist k)
    have : hget (writeSummaryItem s it).hist k =
        if k = itemKey it then some it.Timestamp else hget s.hist k := by
      show hget (hset s.hist (itemKey it) it.Timestamp) k = _
      rw [hget_hset]
    rw [this]

/-- C6: flushing the same batch of accounting events twice leaves the
summary store in the same state as flushing it once — under every key
both the stored amount and the stored time-index score agree — because
each event's writes overwrite by key. -/
theorem C6_flush_idempotent (s : Store) (b : List SummaryItem) (k : String × String) :
    hget (processSummaryBatch (processSummaryBatch s b) b).data k =
        hget (processSummaryBatch s b).data k ∧
      hget (processSummaryBatch (processSummaryBatch s b) b).hist k =
        hget (processSummaryBatch s b).hist k := by
  constructor
  · rw [processBatch_data_hget, processBatch_data_hget, lastKeyWrite_idem]
  · rw [processBatch_hist_hget, processBatch_hist_hget, lastKeyWrite_idem]

/-- The keys (tag, correlationId) present in a store structure. -/
def keysOf {κ α : Type} (l : List (κ × α)) : List κ := l.map Prod.fst

lemma keysOf_hset {κ α : Type} [DecidableEq κ] (l : List (κ × α)) (k : κ) (v : α) :
    keysOf (hset l k v) = if k ∈ keysOf l then keysOf l else keysOf l ++ [k] := by
  induction l with
  | nil => simp [hset, keysOf]
  | cons e rest ih =>
    by_cases h : e.1 = k
    · simp [hset, keysOf, h]
    · have hk : ¬k = e.1 := fun hc => h hc.symm
      simp only [hset, if_neg h, keysOf, map_cons]
      simp only [keysOf] at ih
      rw [ih]
      by_cases hm : k ∈ map Prod.fst rest
      · simp [hm, hk]
      · simp [hm, hk]

lemma nodup_keysOf_hset {κ α : Type} [DecidableEq κ] (l : List (κ × α)) (k : κ) (v : α)
    (h : (keysOf l).Nodup) : (keysOf (hset l k v)).Nodup := by
  rw [keysOf_hset]
  by_cases hm : k ∈ keysOf l
  · simpa [hm] using h
  · simp only [hm, if_neg, not_false_iff]
    simp [List.nodup_append, h, hm]

lemma hset_hset_same {κ α : Type} [DecidableEq κ] (l : List (κ × α)) (k : κ) (v w : α) :
    hset (hset l k v) k w = hset l k w := by
  induction l with
  | nil => simp [hset]
  | cons e rest ih =>
    by_cases h : e.1 = k
    · simp [hset, h]
    · simp [hset, h, ih]

lemma mem_of_hget_eq_some {κ α : Type} [DecidableEq κ] (l : List (κ × α)) (k : κ) (v : α)
    (h : hget l k = some v) : (k, v) ∈ l := by
  induction l with
  | nil => simp [hget] at h
  | cons e rest ih =>
    obtain ⟨a, b⟩ := e
    by_cases h1 : a = k
    · simp only [hget] at h
      rw [if_pos (show (a, b).1 = k from h1)] at h
      rw [Option.some.injEq] at h
      rw [← h1, ← h]
      exact mem_cons_self _ _
    · simp only [hget] at h
      rw [if_neg (show ¬(a, b).1 = k from h1)] at h
      exact mem_cons_of_mem _ (ih h)

/-- The `totalRequests` that a summary query over `[lo, hi]` for a
given tag computes from the write-path store: the number of time-index
entries for the tag whose score lies in the range and whose amount
entry is present in the data hash (every amount the program itself
wrote parses back, so presence is parseability here). -/
def storeTotalRequests (s : Store) (processor : String) (lo hi : ℤ) : Nat :=
  s.hist.countP (fun e =>
    e.1.1 == processor && decide (lo ≤ e.2) && decide (e.2 ≤ hi) &&
      (hget s.data e.1).isSome)

lemma countP_hset_le {κ α : Type} [DecidableEq κ] (l : List (κ × α)) (k : κ) (v : α)
    (p q : κ × α → Bool) (hnd : (keysOf l).Nodup)
    (hpq : ∀ e : κ × α, ¬e.1 = k → p e = q e) :
    countP p (hset l k v) ≤ countP q l + 1 := by
  induction l with
  | nil =>
    simp [hset, countP_cons]
    by_cases hp : p (k, v) <;> simp [hp]
  | cons e rest ih =>
    simp only [keysOf, map_cons, nodup_cons] at hnd
    by_cases h1 : e.1 = k
    · simp only [hset, if_pos h1]
      have hrest : ∀ x ∈ rest, p x = q x := by
        intro x hx
        refine hpq x fun hc => ?_
        exact hnd.1 (by rw [← h1] at hc; exact hc ▸ mem_map_of_mem Prod.fst hx)
      have hcong : countP p rest = countP q rest :=
        countP_congr (fun x hx => by rw [hrest x hx])
      simp only [countP_cons, hcong]
      by_cases hp : p (k, v) <;> by_cases hq : q e <;> simp [hp, hq] <;> omega
    · simp only [hset, if_neg h1, countP_cons]
      have := ih hnd.2
      rw [hpq e h1]
      by_cases hq : q e <;> simp [hq] <;> omega

lemma nodup_keys_processBatch (b : List SummaryItem) :
    ∀ s : Store, (keysOf s.data).Nodup → (keysOf s.hist).Nodup →
      (keysOf (processSummaryBatch s b).data).Nodup ∧
        (keysOf (processSummaryBatch s b).hist).Nodup := by
  induction b with
  | nil => intro s h1 h2; exact ⟨h1, h2⟩
  | cons it rest ih =>
    intro s h1 h2
    exact ih (writeSummaryItem s it) (nodup_keysOf_hset _ _ _ h1) (nodup_keysOf_hset _ _ _ h2)

/-- C10: the summary store keeps at most one amount entry and one
time-index entry per (tag, correlationId): key uniqueness is preserved
by every event write (single or batched), re-recording an already
recorded correlationId overwrites both the amount and the timestamp
(last write wins), and recording two events sharing a key into a
key-unique store raises the tag's `totalRequests` by at most one. -/
theorem C10_store_unique_per_correlation (s : Store) (it it2 : SummaryItem)
    (b : List SummaryItem) (tag : String) (lo hi : ℤ) :
    ((keysOf s.data).Nodup → (keysOf (writeSummaryItem s it).data).Nodup) ∧
      ((keysOf s.hist).Nodup → (keysOf (writeSummaryItem s it).hist).Nodup) ∧
      ((keysOf s.data).Nodup → (keysOf s.hist).Nodup →
        (keysOf (processSummaryBatch s b).data).Nodup ∧
          (keysOf (processSummaryBatch s b).hist).Nodup) ∧
      hget (writeSummaryItem s it).data (itemKey it) = some it.Amount ∧
      hget (writeSummaryItem s it).hist (itemKey it) = some it.Timestamp ∧
      (itemKey it = itemKey it2 → (keysOf s.hist).Nodup →
        storeTotalRequests (writeSummaryItem (writeSummaryItem s it) it2) tag lo hi ≤
          storeTotalRequests s tag lo hi + 1) := by
  refine ⟨fun h => nodup_keysOf_hset _ _ _ h, fun h => nodup_keysOf_hset _ _ _ h,
    fun h1 h2 => nodup_keys_processBatch b s h1 h2, ?_, ?_, ?_⟩
  · show hget (hset s.data (itemKey it) it.Amount) (itemKey it) = some it.Amount
    rw [hget_hset, if_pos rfl]
  · show hget (hset s.hist (itemKey it) it.Timestamp) (itemKey it) = some it.Timestamp
    rw [hget_hset, if_pos rfl]
  · intro hkey hnd
    have hdata : (writeSummaryItem (writeSummaryItem s it) it2).data =
        hset s.data (itemKey it2) it2.Amount := by
      show hset (hset s.data (itemKey it) it.Amount) (itemKey it2) it2.Amount = _
      rw [hkey, hset_hset_same]
    have hhist : (writeSummaryItem (writeSummaryItem s it) it2).hist =
        hset s.hist (itemKey it2) it2.Timestamp := by
      show hset (hset s.hist (itemKey it) it.Timestamp) (itemKey it2) it2.Timestamp = _
      rw [hkey, hset_hset_same]
    unfold storeTotalRequests
    rw [hdata, hhist]
    refine countP_hset_le s.hist (itemKey it2) it2.Timestamp _ _ hnd ?_
    intro e he
    rw [hget_hset, if_neg he]

/-- Witness for C10: writing two events with the same correlationId
into the empty store leaves one entry carrying the second amount, and
the range count rises by at most one. -/
theorem C10_store_unique_per_correlation_witness :
    hget (writeSummaryItem (⟨[], []⟩ : Store) ⟨"default", "c1", 10, 5⟩).data
        ("default", "c1") = some 10 ∧
      storeTotalRequests
          (writeSummaryItem (writeSummaryItem (⟨[], []⟩ : Store) ⟨"default", "c1", 10, 5⟩)
            ⟨"default", "c1", 20, 9⟩) "default" 0 100 ≤
        storeTotalRequests (⟨[], []⟩ : Store) "default" 0 100 + 1 :=
  ⟨(C10_store_unique_per_correlation ⟨[], []⟩ ⟨"default", "c1", 10, 5⟩
      ⟨"default", "c1", 20, 9⟩ [] "default" 0 100).2.2.2.1,
    (C10_store_unique_per_correlation ⟨[], []⟩ ⟨"default", "c1", 10, 5⟩
      ⟨"default", "c1", 20, 9⟩ [] "default" 0 100).2.2.2.2.2 rfl (by simp [keysOf])⟩

/-- `SummaryData` (src/main.go 59-62): the `int64` request counter is
a natural number (it only ever counts list entries) and the `float64`
total an exact rational. -/
structure SummaryData where
  TotalRequests : Nat
  TotalAmount : ℚ
deriving DecidableEq, Repr

/-- Result of one Redis read, as delivered to `getSummaryData`: the
value, or an error (`ids, _ := ...` / `vals, _ := ...` receive a nil
slice together with the discarded error). -/
inductive ReadResult (α : Type) where
  | ok (val : α)
  | err
deriving DecidableEq, Repr

/-- Go `math.Round`: nearest integer, rounding half away from zero. -/
def goRound (x : ℚ) : ℚ :=
  if 0 ≤ x then ((⌊x + 1 / 2⌋ : ℤ) : ℚ) else -((⌊-x + 1 / 2⌋ : ℤ) : ℚ)

/-- Body of the accumulation loop of `getSummaryData` (src/main.go
259-266): a value is counted and summed only when the `HMGet` slot
holds a string (`val.(string)` succeeds; a missing hash field yields
nil, hence `none`) that `strconv.ParseFloat` accepts; `parse` stands
for `ParseFloat`. -/
def summaryStep (parse : String → Option ℚ) (acc : SummaryData)
    (v : Option String) : SummaryData :=
  match v with
  | some str =>
    match parse str with
    | some amount => ⟨acc.TotalRequests + 1, acc.TotalAmount + amount⟩
    | none => acc
  | none => acc

/-- `getSummaryData` (src/main.go 243-271): range-read the ids, return
the zero summary when none, otherwise `HMGet` the amounts, accumulate,
and round the total to 2 decimal places.  The errors of both reads are
discarded by the source (`ids, _ :=`, `vals, _ :=`), leaving nil
slices, which is the `ReadResult.err` case. -/
def getSummaryData (parse : String → Option ℚ) (zrangeRes : ReadResult (List String))
    (hmgetRes : List String → ReadResult (List (Option String))) : SummaryData :=
  let ids := match zrangeRes with
    | ReadResult.ok l => l
    | ReadResult.err => []
  if ids.length = 0 then ⟨0, 0⟩
  else
    let vals := match hmgetRes ids with
      | ReadResult.ok v => v
      | ReadResult.err => []
    let acc := vals.foldl (summaryStep parse) ⟨0, 0⟩
    ⟨acc.TotalRequests, goRound (acc.TotalAmount * 100) / 100⟩

/-- `ZRANGEBYSCORE summary:<tag>:history lo hi`: the members of the
per-tag time index whose score lies in the inclusive range.  The
per-tag index is the list of (correlationId, timestampMillis) pairs. -/
def zrangeByScore (hist : List (String × ℤ)) (lo hi : ℤ) : List String :=
  (hist.filter (fun e => decide (lo ≤ e.2) && decide (e.2 ≤ hi))).map Prod.fst

/-- `HMGET summary:<tag>:data ids...`: one slot per requested id, nil
for a missing field.  The per-tag hash is the list of (correlationId,
storedValue) pairs, values being the strings Redis returns. -/
def hmget (data : List (String × String)) (ids : List String) : List (Option String) :=
  ids.map (hget data)

/-- `getSummaryData` evaluated against a per-tag store state with both
reads succeeding. -/
def getSummaryDataStore (parse : String → Option ℚ) (data : List (String × String))
    (hist : List (String × ℤ)) (lo hi : ℤ) : SummaryData :=
  getSummaryData parse (ReadResult.ok (zrangeByScore hist lo hi))
    (fun ids => ReadResult.ok (hmget data ids))

/-- Whether an `HMGet` slot contributes to the summary. -/
def slotCounted (parse : String → Option ℚ) (v : Option String) : Bool :=
  (v.bind parse).isSome

lemma foldl_summaryStep (parse : String → Option ℚ) (vals : List (Option String)) :
    ∀ acc : SummaryData,
      vals.foldl (summaryStep parse) acc =
        ⟨acc.TotalRequests + vals.countP (slotCounted parse),
          acc.TotalAmount + (vals.filterMap (fun v => v.bind parse)).sum⟩ := by
  induction vals with
  | nil => intro acc; simp
  | cons v rest ih =>
    intro acc
    rw [foldl_cons, ih]
    cases v with
    | none =>
      simp [summaryStep, slotCounted, countP_cons, filterMap_cons]
    | some str =>
      cases hp : parse str with
      | none =>
        simp [summaryStep, hp, slotCounted, countP_cons, filterMap_cons]
      | some amount =>
        simp [summaryStep, hp, slotCounted, countP_cons, filterMap_cons]
        constructor
        · omega
        · ring

lemma getSummaryDataStore_spec (parse : String → Option ℚ)
    (data : List (String × String)) (hist : List (String × ℤ)) (lo hi : ℤ) :
    getSummaryDataStore parse data hist lo hi =
      ⟨((zrangeByScore hist lo hi).map (hget data)).countP (slotCounted parse),
        goRound
            ((((zrangeByScore hist lo hi).map (hget data)).filterMap
                  (fun v => v.bind parse)).sum * 100) /
          100⟩ := by
  unfold getSummaryDataStore getSummaryData hmget
  by_cases h : (zrangeByScore hist lo hi).length = 0
  · rw [length_eq_zero] at h
    simp [h, goRound]
    norm_num
  · have h2 : ¬(zrangeByScore hist lo hi).length = 0 := h
    simp only [h2, if_neg, not_false_iff]
    rw [foldl_summaryStep]
    simp

lemma goRound_mono_nonneg {x y : ℚ} (hx : 0 ≤ x) (hxy : x ≤ y) :
    goRound x ≤ goRound y := by
  rw [goRound, goRound, if_pos hx, if_pos (hx.trans hxy)]
  exact_mod_cast Int.floor_mono (by linarith)

/-- C8: the summary query returns the zero summary when no
correlationId in the time index falls inside the range; otherwise it
counts and sums exactly the slots whose amount is present and
parseable — missing or unparseable entries are skipped without failing
the query — and rounds the total to 2 decimal places. -/
theorem C8_query_counts_parseable_entries (parse : String → Option ℚ)
    (data : List (String × String)) (hist : List (String × ℤ)) (lo hi : ℤ) :
    (zrangeByScore hist lo hi = [] →
      getSummaryDataStore parse data hist lo hi = ⟨0, 0⟩) ∧
      (getSummaryDataStore parse data hist lo hi).TotalRequests =
        ((zrangeByScore hist lo hi).map (hget data)).countP (slotCounted parse) ∧
      (getSummaryDataStore parse data hist lo hi).TotalAmount =
        goRound
            ((((zrangeByScore hist lo hi).map (hget data)).filterMap
                  (fun v => v.bind parse)).sum * 100) /
          100 := by
  refine ⟨?_, ?_, ?_⟩
  · intro h
    unfold getSummaryDataStore getSummaryData
    simp [h]
  · rw [getSummaryDataStore_spec]
  · rw [getSummaryDataStore_spec]

/-- Witness for C8: a time index whose only entry lies outside the
queried range yields the zero summary. -/
theorem C8_query_counts_parseable_entries_witness :
    zrangeByScore [("c1", 5)] 10 20 = [] ∧
      getSummaryDataStore (fun _ => none) [] [("c1", 5)] 10 20 = ⟨0, 0⟩ :=
  ⟨by decide,
    (C8_query_counts_parseable_entries (fun _ => none) [] [("c1", 5)] 10 20).1
      (by decide)⟩

/-- C7: widening the queried time range never decreases either
`totalRequests` or `totalAmount`, for amounts that parse to
non-negative values (the data model's amounts are positive currency
values) and an unchanged store. -/
theorem C7_query_monotone_in_range (parse : String → Option ℚ)
    (data : List (String × String)) (hist : List (String × ℤ))
    (lo hi lo2 hi2 : ℤ) (hlo : lo2 ≤ lo) (hhi : hi ≤ hi2)
    (hpos : ∀ e ∈ data, ∀ q : ℚ, parse e.2 = some q → 0 ≤ q) :
    (getSummaryDataStore parse data hist lo hi).TotalRequests ≤
        (getSummaryDataStore parse data hist lo2 hi2).TotalRequests ∧
      (getSummaryDataStore parse data hist lo hi).TotalAmount ≤
        (getSummaryDataStore parse data hist lo2 hi2).TotalAmount := by
  have hsubIds : zrangeByScore hist lo hi <+ zrangeByScore hist lo2 hi2 := by
    unfold zrangeByScore
    refine Sublist.map Prod.fst (monotone_filter_right hist ?_)
    intro e he
    simp only [Bool.and_eq_true, decide_eq_true_eq] at he ⊢
    omega
  have hsubVals : (zrangeByScore hist lo hi).map (hget data) <+
      (zrangeByScore hist lo2 hi2).map (hget data) := hsubIds.map _
  have hsubParsed :
      ((zrangeByScore hist lo hi).map (hget data)).filterMap (fun v => v.bind parse) <+
        ((zrangeByScore hist lo2 hi2).map (hget data)).filterMap
          (fun v => v.bind parse) := hsubVals.filterMap _
  have hnonneg : ∀ q ∈ ((zrangeByScore hist lo2 hi2).map (hget data)).filterMap
      (fun v => v.bind parse), 0 ≤ q := by
    intro q hq
    rw [mem_filterMap] at hq
    obtain ⟨v, hv, hbind⟩ := hq
    rw [mem_map] at hv
    obtain ⟨id, _, hid⟩ := hv
    cases v with
    | none => simp at hbind
    | some str =>
      exact hpos (id, str) (mem_of_hget_eq_some data id str hid) q (by simpa using hbind)
  constructor
  · rw [getSummaryDataStore_spec, getSummaryDataStore_spec]
    exact hsubVals.countP_le _
  · rw [getSummaryDataStore_spec, getSummaryDataStore_spec]
    have hsum : (((zrangeByScore hist lo hi).map (hget data)).filterMap
          (fun v => v.bind parse)).sum ≤
        (((zrangeByScore hist lo2 hi2).map (hget data)).filterMap
          (fun v => v.bind parse)).sum :=
      Sublist.sum_le_sum hsubParsed hnonneg
    have hs0 : 0 ≤ (((zrangeByScore hist lo hi).map (hget data)).filterMap
        (fun v => v.bind parse)).sum :=
      sum_nonneg fun q hq => hnonneg q (hsubParsed.subset hq)
    have hr := goRound_mono_nonneg (mul_nonneg hs0 (by norm_num : (0 : ℚ) ≤ 100))
      (mul_le_mul_of_nonneg_right hsum (by norm_num : (0 : ℚ) ≤ 100))
    linarith [hr]

/-- Witness for C7: one in-range payment of amount 10, queried over a
narrow and a wide range. -/
theorem C7_query_monotone_in_range_witness :
    (getSummaryDataStore (fun _ => some 10) [("c1", "10")] [("c1", 7)] 5 9).TotalRequests ≤
        (getSummaryDataStore (fun _ => some 10) [("c1", "10")] [("c1", 7)]
          0 100).TotalRequests ∧
      (getSummaryDataStore (fun _ => some 10) [("c1", "10")] [("c1", 7)] 5 9).TotalAmount ≤
        (getSummaryDataStore (fun _ => some 10) [("c1", "10")] [("c1", 7)]
          0 100).TotalAmount :=
  C7_query_monotone_in_range (fun _ => some 10) [("c1", "10")] [("c1", 7)] 5 9 0 100
    (by norm_num) (by norm_num)
    (fun e _ q hq => by
      simp only [Option.some.injEq] at hq
      rw [← hq]
      norm_num)

/-- C5 counterexample: with the single stored amount "10" in range, a
failed index read makes `getSummaryData` return the ordinary summary
(0, 0.00) — the same value a successful read over an empty index
returns and a wrong total here — rather than any error: the function's
return type carries no error at all, because the source discards both
Redis errors (`ids, _ :=`, `vals, _ :=`, src/main.go 248, 258). -/
theorem C5_counterexample_silent_zero_on_failed_read :
    getSummaryData (fun str => if str = "10" then some 10 else none) ReadResult.err
        (fun _ => ReadResult.ok [some "10"]) = ⟨0, 0⟩ ∧
      getSummaryData (fun str => if str = "10" then some 10 else none)
        (ReadResult.ok ["c1"]) (fun _ => ReadResult.ok [some "10"]) = ⟨1, 10⟩ := by
  constructor
  · rfl
  · have hfloor : (⌊(1000 : ℚ) + 1 / 2⌋ : ℤ) = 1000 :=
      Int.floor_eq_iff.2 ⟨by norm_num, by norm_num⟩
    unfold getSummaryData
    norm_num [summaryStep, goRound, hfloor]

/-- C5 amended: when a summary store read fails, the failure is not
surfaced; the query silently returns the zero summary (0, 0.00) — a
failed index read is treated as an empty id list, and a failed amounts
read as an empty value list. -/
theorem C5_amended_read_failure_yields_zero (parse : String → Option ℚ)
    (hm : List String → ReadResult (List (Option String))) (ids : List String)
    (h : ids ≠ []) :
    getSummaryData parse ReadResult.err hm = ⟨0, 0⟩ ∧
      getSummaryData parse (ReadResult.ok ids) (fun _ => ReadResult.err) = ⟨0, 0⟩ := by
  constructor
  · rfl
  · have hlen : ¬ids.length = 0 := by simpa [length_eq_zero] using h
    have hfloor : (⌊(0 : ℚ) + 1 / 2⌋ : ℤ) = 0 :=
      Int.floor_eq_iff.2 ⟨by norm_num, by norm_num⟩
    unfold getSummaryData
    simp only [hlen, if_neg, not_false_iff]
    norm_num [goRound, hfloor]

/-- Witness for the amended C5. -/
theorem C5_amended_read_failure_yields_zero_witness :
    getSummaryData (fun _ => none) ReadResult.err (fun _ => ReadResult.ok []) = ⟨0, 0⟩ ∧
      getSummaryData (fun _ => none) (ReadResult.ok ["c1"]) (fun _ => ReadResult.err) =
        ⟨0, 0⟩ :=
  C5_amended_read_failure_yields_zero (fun _ => none) (fun _ => ReadResult.ok [])
    ["c1"] (by decide)

end Gateway
